import Mathlib

/-!
A verification development for the `rust_info_fetcher` scraper
(`src/lib.rs`, `src/main.rs`).

The embedding is shallow:

* Rust `String` values are Lean `String`s; character-class predicates of the
  Rust standard library (`char::is_whitespace`, `char::is_numeric`) are encoded
  explicitly below.
* A parsed HTML listing container (`js-entry-card-container` node) is the
  `Container` structure: the text of its first `h2.card-info-title` (if any),
  the text of its first `.card-info-address` (if any), and the `href`
  attributes of its `<a>` descendants in document order.
* Fallible operations return `Option`/`Except`; a Rust panic (the `unwrap()`
  calls in `scrape_page`) is modelled as `none`.
* The network is a function `fetch : Nat → FetchOutcome` giving each page's
  transport-level outcome; `println!` observability is modelled by a separate
  log function.
* The semaphore-governed concurrency of `scrape_pages_parallel` is modelled
  twice, matching its two aspects: a functional model for the data flow
  (`scrape_pages_parallel`, `scrape_pages_parallel_sched`), and a small-step
  interleaving machine (`GateStep`) for the temporal claims about the
  admission gate.
-/

namespace InfoFetcher

/-- Rust `char::is_whitespace`: the Unicode `White_Space` property.  The
member code points are listed exhaustively. -/
def rustIsWhitespace (c : Char) : Bool :=
  (0x09 ≤ c.toNat && c.toNat ≤ 0x0D) || c.toNat = 0x20 || c.toNat = 0x85 ||
  c.toNat = 0xA0 || c.toNat = 0x1680 ||
  (0x2000 ≤ c.toNat && c.toNat ≤ 0x200A) || c.toNat = 0x2028 ||
  c.toNat = 0x2029 || c.toNat = 0x202F || c.toNat = 0x205F || c.toNat = 0x3000

/-- Non-ASCII characters of Unicode categories Nd/Nl/No that occur in this
development.  Rust `char::is_numeric` is true on all of Nd/Nl/No; below
U+0080 the numeric characters are exactly the ASCII digits, and of the
non-ASCII code points appearing anywhere in this file only the vulgar
fractions are numeric, so `rustIsNumeric` agrees with `char::is_numeric`
on every character this development evaluates it on. -/
def nonAsciiNumericChars : List Char := ['½', '¼', '¾', '²', '³']

/-- Rust `char::is_numeric`: true iff the character has one of the Unicode
general categories Nd, Nl, No (see `nonAsciiNumericChars` for the encoding
of the non-ASCII part). -/
def rustIsNumeric (c : Char) : Bool :=
  c.isDigit || nonAsciiNumericChars.contains c

/-- Drop leading Rust whitespace (the front half of `str::trim`). -/
def trimLeft (l : List Char) : List Char := l.dropWhile rustIsWhitespace

/-- Drop trailing Rust whitespace (the back half of `str::trim`). -/
def trimRight (l : List Char) : List Char :=
  (l.reverse.dropWhile rustIsWhitespace).reverse

/-- Rust `str::trim` on a character list. -/
def rustTrimL (l : List Char) : List Char := trimRight (trimLeft l)

/-- Rust `str::trim`. -/
def rustTrim (s : String) : String := ⟨rustTrimL s.toList⟩

/-- Rust `str::starts_with` with a string pattern. -/
def rustStartsWith (s pre : String) : Bool := pre.toList.isPrefixOf s.toList

/-- Accumulator tokenizer behind `splitWhitespace`: `cur` holds the characters
of the token currently being read, in reverse. -/
def wsTokensAux (cur : List Char) : List Char → List (List Char)
  | [] => if cur.isEmpty then [] else [cur.reverse]
  | c :: cs =>
    if rustIsWhitespace c then
      if cur.isEmpty then wsTokensAux [] cs else cur.reverse :: wsTokensAux [] cs
    else wsTokensAux (c :: cur) cs

/-- Rust `str::split_whitespace` on a character list: maximal runs of
non-whitespace characters; never yields an empty token. -/
def wsTokens (l : List Char) : List (List Char) := wsTokensAux [] l

/-- Rust `str::split_whitespace`, collected to a list. -/
def splitWhitespace (s : String) : List String := (wsTokens s.toList).map String.mk

/-- The `Clinic` record of `src/lib.rs` (lines 11-19). -/
structure Clinic where
  name : String
  address : String
  postcode : Option String
  city : Option String
  phone : Option String
  website : Option String
deriving DecidableEq, Repr

/-- One parsed `js-entry-card-container` node of a result page:
`title` is the text of its first `h2.card-info-title` descendant (if any),
`address` the text of its first `.card-info-address` descendant (if any), and
`links` the `href` attribute values of its `<a>` descendants in document
order (anchors without `href` are absent, matching the `filter_map`). -/
structure Container where
  title : Option String
  address : Option String
  links : List String
deriving DecidableEq, Repr

/-- The per-container closure of `scrape_page` (`src/lib.rs` lines 95-128).
The two `unwrap()` calls on a missing title or address element are a panic,
modelled as `none`. -/
def extractContainer (c : Container) : Option Clinic :=
  match c.title, c.address with
  | some titleText, some addressRaw =>
    let address_text := rustTrim addressRaw
    let postcode :=
      (splitWhitespace address_text).find? (fun w => w.toList.all rustIsNumeric)
    let city := (splitWhitespace (rustTrim address_text)).getLast?
    let phone := c.links.find? (fun href => rustStartsWith href "tel:")
    let website := c.links.find? (fun href => rustStartsWith href "http")
    some { name := rustTrim titleText, address := address_text,
           postcode := postcode, city := city, phone := phone, website := website }
  | _, _ => none

/-- The `.map(...).collect()` over all containers of a page
(`src/lib.rs` lines 93-129): the first panicking container aborts the whole
collection (`none`). -/
def extractPage (p : List Container) : Option (List Clinic) :=
  p.mapM extractContainer

instance {ε α : Type} [DecidableEq ε] [DecidableEq α] : DecidableEq (Except ε α)
  | .ok x, .ok y =>
    if h : x = y then .isTrue (by rw [h]) else .isFalse (by simp [h])
  | .ok _, .error _ => .isFalse (by simp)
  | .error _, .ok _ => .isFalse (by simp)
  | .error e, .error e' =>
    if h : e = e' then .isTrue (by rw [h]) else .isFalse (by simp [h])

/-- Transport-level outcome of fetching one page: either the `send()` future
fails, or a response with a status code arrives whose body read
(`res.text()`) may itself fail.  Error payloads are abstract `Nat` codes. -/
inductive FetchOutcome where
  | sendError (e : Nat)
  | response (status : Nat) (body : Except Nat (List Container))
deriving DecidableEq, Repr

/-- Rust `reqwest::StatusCode::is_success`: `2xx`. -/
def statusIsSuccess (s : Nat) : Bool := 200 ≤ s && s ≤ 299

/-- The `println!` observability events of `scrape_page`. -/
inductive LogEvent where
  | scraping (page : Nat)
  | failedFetch (page : Nat) (status : Nat)
  | noResults (page : Nat)
deriving DecidableEq, Repr

/-- The method `Scraper::scrape_page` (`src/lib.rs` lines 75-136), value channel.
`none` is a panic during extraction; `some (.error e)` is the `?`-propagated
transport error; `some (.ok rs)` is a normal return. -/
def scrape_page (page_num : Nat) (f : FetchOutcome) :
    Option (Except Nat (List Clinic)) :=
  match f with
  | .sendError e => some (.error e)
  | .response status body =>
    if statusIsSuccess status then
      match body with
      | .error e => some (.error e)
      | .ok page =>
        match extractPage page with
        | none => none
        | some results => some (.ok results)
    else some (.ok [])

/-- The method `Scraper::scrape_page`, observability channel: the `println!` calls of
lines 76, 83-87 and 131-133 of `src/lib.rs`, in execution order. -/
def scrape_page_log (page_num : Nat) (f : FetchOutcome) : List LogEvent :=
  .scraping page_num ::
    match f with
    | .sendError _ => []
    | .response status body =>
      if statusIsSuccess status then
        match body with
        | .error _ => []
        | .ok page =>
          match extractPage page with
          | none => []
          | some results => if results.length = 0 then [.noResults page_num] else []
      else [.failedFetch page_num status]

/-- The page enumeration `(1..=max_pages).collect::<Vec<_>>()`. -/
def pages (max_pages : Nat) : List Nat := List.range' 1 max_pages

/-- The aggregation loop of `scrape_pages_parallel` (`src/lib.rs` lines
54-58): extend with every `Ok` page result, skip `Err` results. -/
def collectOk (results : List (Except Nat (List Clinic))) : List Clinic :=
  results.foldl (fun acc r => match r with | .ok cs => acc ++ cs | .error _ => acc) []

/-- A single page result's contribution to the aggregate. -/
def okPart (r : Except Nat (List Clinic)) : List Clinic :=
  match r with | .ok cs => cs | .error _ => []

/-- The method `Scraper::scrape_pages_parallel` (`src/lib.rs` lines 38-61), data flow:
every page task runs `scrape_page`, `join_all` delivers the results in launch
order, and the loop aggregates the `Ok` ones.  A panic in any task (`none`)
propagates out of `join_all` and crashes the call. -/
def scrape_pages_parallel (max_pages : Nat) (fetch : Nat → FetchOutcome) :
    Option (Except Nat (List Clinic)) :=
  match (pages max_pages).mapM (fun p => scrape_page p (fetch p)) with
  | none => none
  | some results => some (.ok (collectOk results))

/-- The result buffer of `join_all` after the completions listed in `sched`
(task indices in completion order) have run: slot `j` holds task `j`'s result
once `j` has completed. -/
def completeAll (task : Nat → α) : List Nat → Nat → Option α
  | [], _ => none
  | i :: rest, j => if j = i then some (task i) else completeAll task rest j

/-- The combinator `futures::future::join_all` over `n` tasks whose completion order is
`sched`: the output vector is read back in launch order `0, 1, …, n-1`;
`none` if some launched task never completed. -/
def join_all (n : Nat) (task : Nat → α) (sched : List Nat) : Option (List α) :=
  (List.range n).mapM (completeAll task sched)

/-- The function `scrape_pages_parallel` with an explicit completion schedule: task `i`
(zero-based launch index) scrapes page `1 + i` and yields `res (1 + i)`;
the tasks complete in the order `sched`. -/
def scrape_pages_parallel_sched (max_pages : Nat)
    (res : Nat → Except Nat (List Clinic)) (sched : List Nat) :
    Option (Except Nat (List Clinic)) :=
  match join_all max_pages (fun i => res (1 + i)) sched with
  | none => none
  | some results => some (.ok (collectOk results))

/-- The body of the sequential loop of `Scraper::scrape_pages`
(`src/lib.rs` lines 67-70), over the remaining pages, with the clinics
accumulated so far: the `?` on `scrape_page` aborts with the first error. -/
def scrape_pages_go (fetch : Nat → FetchOutcome) (acc : List Clinic) :
    List Nat → Option (Except Nat (List Clinic))
  | [] => some (.ok acc)
  | p :: ps =>
    match scrape_page p (fetch p) with
    | none => none
    | some (.error e) => some (.error e)
    | some (.ok cs) => scrape_pages_go fetch (acc ++ cs) ps

/-- The method `Scraper::scrape_pages` (`src/lib.rs` lines 63-73), the sequential
fail-fast mode. -/
def scrape_pages (max_pages : Nat) (fetch : Nat → FetchOutcome) :
    Option (Except Nat (List Clinic)) :=
  scrape_pages_go fetch [] (pages max_pages)

/-- The pages on which the sequential loop actually calls `scrape_page`, in
the order it does so (it stops after a panic or a propagated error). -/
def scrape_pages_order_go (fetch : Nat → FetchOutcome) : List Nat → List Nat
  | [] => []
  | p :: ps =>
    match scrape_page p (fetch p) with
    | none => [p]
    | some (.error _) => [p]
    | some (.ok _) => p :: scrape_pages_order_go fetch ps

/-- Fetch order of the sequential mode. -/
def scrape_pages_fetch_order (max_pages : Nat) (fetch : Nat → FetchOutcome) :
    List Nat := scrape_pages_order_go fetch (pages max_pages)

/-!
## The admission gate as a small-step machine

One page task of `scrape_pages_parallel` (`src/lib.rs` lines 44-49) runs

  `let guard = semaphore.acquire().await;`
  `let results = self.scrape_page(*page_num).await;`
  `drop(guard);`

`scrape_page` first performs the network I/O (send the request, read the
body) and then the CPU-only HTML extraction, so a task passes through the
phases below; the permit obtained at `acquire` is dropped only after
`scrape_page` returns, i.e. after extraction.  The machine interleaves the
task steps arbitrarily, which over-approximates every schedule the
single-process executor can produce.
-/

/-- Phase of one page task. -/
inductive Phase where
  | waiting
  | fetching
  | extracting
  | done
deriving DecidableEq, Repr

/-- Global state: the phase of each of the `page_count` tasks and the number
of semaphore permits currently available. -/
structure GateState where
  phases : List Phase
  permits : Nat
deriving DecidableEq, Repr

/-- Start state: all tasks waiting, `Semaphore::new(max_parallel)` full
(`src/lib.rs` line 34). -/
def initState (page_count k : Nat) : GateState :=
  ⟨List.replicate page_count .waiting, k⟩

/-- One scheduler step. `acquire` is `semaphore.acquire().await` (blocks on
an empty semaphore); `respond` is the arrival of the response, after which
the task does CPU-only extraction while still owning its permit; `finish` is
the return of `scrape_page` followed by `drop(guard)`. -/
inductive GateStep : GateState → GateState → Prop where
  | acquire (s : GateState) (i : Nat)
      (hi : s.phases[i]? = some .waiting) (hp : 0 < s.permits) :
      GateStep s ⟨s.phases.set i .fetching, s.permits - 1⟩
  | respond (s : GateState) (i : Nat)
      (hi : s.phases[i]? = some .fetching) :
      GateStep s ⟨s.phases.set i .extracting, s.permits⟩
  | finish (s : GateState) (i : Nat)
      (hi : s.phases[i]? = some .extracting) :
      GateStep s ⟨s.phases.set i .done, s.permits + 1⟩

/-- Reachability along `GateStep`. -/
inductive GateReach (start : GateState) : GateState → Prop where
  | refl : GateReach start start
  | tail {s t : GateState} : GateReach start s → GateStep s t → GateReach start t

/-- A task in this phase owns a semaphore permit. -/
def holdsPermit : Phase → Bool
  | .fetching => true
  | .extracting => true
  | _ => false

/-- A task in this phase has an outstanding network request. -/
def isFetching : Phase → Bool
  | .fetching => true
  | _ => false

/-- A task in this phase is doing CPU-only extraction work. -/
def isExtracting : Phase → Bool
  | .extracting => true
  | _ => false

/-- Number of outstanding network requests. -/
def countFetching (s : GateState) : Nat := s.phases.countP isFetching

/-- Number of tasks currently extracting. -/
def countExtracting (s : GateState) : Nat := s.phases.countP isExtracting

/-- Number of permits held by tasks. -/
def countHolding (s : GateState) : Nat := s.phases.countP holdsPermit

/-- The release discipline the specification asserts: a permit is given back
as soon as the response arrives, so the free permits plus the in-flight
requests always exhaust the gate. -/
def releasedAfterResponse (k : Nat) (s : GateState) : Prop :=
  s.permits + countFetching s = k

/-- The postcode rule in the specification's own words, literally: the first
whitespace-delimited token of the address consisting entirely of digits.
Stated from the spec for comparison only; the extractor instead uses Rust
`char::is_numeric` (see `extractContainer`). -/
def firstAllDigitToken (address : String) : Option String :=
  (splitWhitespace address).find? (fun w => w.toList.all Char.isDigit)

/-!
## Concrete data for witnesses and counterexamples
-/

/-- Sample record used in the completion-order witness. -/
def sampleClinic (nm : String) : Clinic := ⟨nm, nm, none, none, none, none⟩

/-- Per-page results used in the completion-order witness: page `p` yields
one record tagged with its page number. -/
def sampleRes : Nat → Except Nat (List Clinic) :=
  fun p => .ok [sampleClinic (toString p)]

/-- A well-formed listing container. -/
def goodContainer : Container := ⟨some " Clinic B ", some " Addr 7 City ", []⟩

/-- A listing container lacking the `h2.card-info-title` element. -/
def badContainer : Container := ⟨none, some "Addr 7 City", []⟩

/-- The record `goodContainer` parses to. -/
def goodClinic : Clinic :=
  ⟨"Clinic B", "Addr 7 City", some "7", some "City", none, none⟩

/-- The listing container of the specification's postcode example. -/
def bahnhofContainer : Container :=
  ⟨some "Clinic", some "Bahnhofstrasse 12 8001 Zürich", []⟩

/-- The record `bahnhofContainer` parses to. -/
def bahnhofClinic : Clinic :=
  ⟨"Clinic", "Bahnhofstrasse 12 8001 Zürich", some "12", some "Zürich", none, none⟩

/-- A container whose address starts with a token that is numeric for Rust
`char::is_numeric` but is not made of digits. -/
def halfContainer : Container := ⟨some "Clinic", some "½ 8001 Zürich", []⟩

/-- The specification's no-all-digit-token example. -/
def noDigitContainer : Container := ⟨some "Clinic", some "Bahnhofstrasse Zürich", []⟩

/-- The container of the specification's phone/website link example. -/
def linksContainer : Container :=
  ⟨some "Clinic", some "Addr", ["mailto:x@y.com", "tel:+41441234567", "http://example.com"]⟩

/-- The record `linksContainer` parses to. -/
def linksClinic : Clinic :=
  ⟨"Clinic", "Addr", none, some "Addr",
    some "tel:+41441234567", some "http://example.com"⟩

/-- A page holding one well-formed container. -/
def pageT : List Container := [⟨some "T", some "A 1 B", []⟩]

/-- The record the container of `pageT` parses to. -/
def clinicT : Clinic := ⟨"T", "A 1 B", some "1", some "B", none, none⟩

/-- Witness network for the failure-isolation claim: page 2 fails at the
transport level, every other page succeeds with `pageT`. -/
def fetchC5 : Nat → FetchOutcome :=
  fun p => if p = 2 then .sendError 9 else .response 200 (.ok pageT)

/-- Per-page results of `fetchC5`. -/
def resC5 : Nat → Except Nat (List Clinic) :=
  fun p => if p = 2 then .error 9 else .ok [clinicT]

/-- Witness network for the non-success-status claim: page 1 returns 404,
every other page succeeds with `pageT`. -/
def fetchC6 : Nat → FetchOutcome :=
  fun p => if p = 1 then .response 404 (.ok []) else .response 200 (.ok pageT)

/-- Per-page results of `fetchC6`. -/
def resC6 : Nat → Except Nat (List Clinic) :=
  fun p => if p = 1 then .ok [] else .ok [clinicT]

/-- Witness network for the sequential fail-fast claim: page 1 is a
non-success status (skipped), page 2 fails at the transport level. -/
def fetchC9 : Nat → FetchOutcome :=
  fun p => if p = 2 then .sendError 7 else .response 404 (.ok [])

/-!
## Helper lemmas
-/

/-- Effect of writing one slot on a `countP`. -/
theorem countP_set_balance {α : Type} (p : α → Bool) {l : List α} {i : Nat}
    {a : α} (b : α) (hi : l[i]? = some a) :
    (l.set i b).countP p + (if p a then 1 else 0)
      = l.countP p + (if p b then 1 else 0) := by
  induction l generalizing i with
  | nil => simp at hi
  | cons c cs ih =>
    cases i with
    | zero =>
      simp only [List.getElem?_cons_zero, Option.some.injEq] at hi
      subst hi
      simp only [List.set_cons_zero, List.countP_cons]
      omega
    | succ n =>
      simp only [List.getElem?_cons_succ] at hi
      simp only [List.set_cons_succ, List.countP_cons]
      have := ih hi
      omega

/-- A `countP` of a constant-`waiting` list is zero for any predicate false on
`waiting`. -/
theorem countP_replicate_waiting (p : Phase → Bool) (h : p .waiting = false)
    (n : Nat) : (List.replicate n Phase.waiting).countP p = 0 := by
  induction n with
  | zero => simp
  | succ m ih => simp [List.replicate_succ, List.countP_cons, h, ih]

/-- Permit-conservation invariant of the gate machine: free permits plus
permits held by fetching or extracting tasks always equal the gate size. -/
theorem gate_invariant {n k : Nat} {s : GateState}
    (h : GateReach (initState n k) s) : s.permits + countHolding s = k := by
  induction h with
  | refl =>
    simp [initState, countHolding, countP_replicate_waiting holdsPermit rfl]
  | tail _ hstep ih =>
    cases hstep with
    | acquire i hi hp =>
      have hbal := countP_set_balance holdsPermit Phase.fetching hi
      simp only [holdsPermit] at hbal
      simp only [countHolding] at ih ⊢
      simp at hbal
      omega
    | respond i hi =>
      have hbal := countP_set_balance holdsPermit Phase.extracting hi
      simp only [holdsPermit] at hbal
      simp only [countHolding] at ih ⊢
      simp at hbal
      omega
    | finish i hi =>
      have hbal := countP_set_balance holdsPermit Phase.done hi
      simp only [holdsPermit] at hbal
      simp only [countHolding] at ih ⊢
      simp at hbal
      omega

/-- Fetching and extracting tasks partition the permit holders. -/
theorem countHolding_split (s : GateState) :
    countHolding s = countFetching s + countExtracting s := by
  show s.phases.countP holdsPermit
      = s.phases.countP isFetching + s.phases.countP isExtracting
  induction s.phases with
  | nil => simp
  | cons c cs ih =>
    simp only [List.countP_cons, ih]
    cases c <;> simp [holdsPermit, isFetching, isExtracting] <;> omega

/-- An `Option`-valued `mapM` that succeeds pointwise is a `map`. -/
theorem mapM_option_eq_map {α β : Type} {f : α → Option β} {g : α → β} :
    ∀ {l : List α}, (∀ a ∈ l, f a = some (g a)) → l.mapM f = some (l.map g) := by
  intro l
  rw [← List.mapM'_eq_mapM]
  induction l with
  | nil => intro _; rfl
  | cons a as ih =>
    intro h
    rw [List.mapM'_cons, h a (by simp), ih (fun x hx => h x (by simp [hx]))]
    rfl

/-- The aggregation loop, as a flat concatenation of per-page parts. -/
theorem collectOk_foldl (l : List (Except Nat (List Clinic))) (acc : List Clinic) :
    l.foldl (fun acc r => match r with | .ok cs => acc ++ cs | .error _ => acc) acc
      = acc ++ (l.map okPart).flatten := by
  induction l generalizing acc with
  | nil => simp
  | cons r rs ih =>
    cases r with
    | ok cs => simp [okPart, ih, List.append_assoc]
    | error e => simp [okPart, ih]

/-- The function `collectOk` concatenates the `Ok` contributions in list order. -/
theorem collectOk_eq_join (l : List (Except Nat (List Clinic))) :
    collectOk l = (l.map okPart).flatten := by
  simpa [collectOk] using collectOk_foldl l []

/-- A completed task's slot in the `join_all` buffer holds its result. -/
theorem completeAll_mem {α : Type} (task : Nat → α) {sched : List Nat} {j : Nat}
    (h : j ∈ sched) : completeAll task sched j = some (task j) := by
  induction sched with
  | nil => simp at h
  | cons i rest ih =>
    by_cases hj : j = i
    · subst hj; simp [completeAll]
    · have h2 : j ∈ rest := (List.mem_cons.mp h).resolve_left hj
      simp [completeAll, hj, ih h2]

/-- Once every launched task has completed, `join_all` returns all results in
launch order, whatever the completion order was. -/
theorem join_all_complete {α : Type} (n : Nat) (task : Nat → α)
    {sched : List Nat} (h : ∀ j ∈ List.range n, j ∈ sched) :
    join_all n task sched = some ((List.range n).map task) := by
  exact mapM_option_eq_map (fun j hj => completeAll_mem task (h j hj))

/-- The page list enumerates launch indices shifted by one. -/
theorem pages_eq_map_range (n : Nat) :
    pages n = (List.range n).map (fun i => 1 + i) := by
  simp [pages, List.range'_eq_map_range]

/-- A complete schedule makes the schedule-indexed model agree with the
launch-order aggregate of the per-page results. -/
theorem sched_model_eq (n : Nat) (res : Nat → Except Nat (List Clinic))
    {sched : List Nat} (h : ∀ j ∈ List.range n, j ∈ sched) :
    scrape_pages_parallel_sched n res sched
      = some (.ok (collectOk ((pages n).map res))) := by
  rw [scrape_pages_parallel_sched, join_all_complete n _ h]
  have : (List.range n).map (fun i => res (1 + i)) = (pages n).map res := by
    rw [pages_eq_map_range, List.map_map]
    rfl
  rw [this]

/-- When no page task panics, the parallel orchestrator returns the
launch-order aggregate of the per-page results. -/
theorem scrape_pages_parallel_eq (n : Nat) (fetch : Nat → FetchOutcome)
    (res : Nat → Except Nat (List Clinic))
    (h : ∀ p ∈ pages n, scrape_page p (fetch p) = some (res p)) :
    scrape_pages_parallel n fetch = some (.ok (collectOk ((pages n).map res))) := by
  rw [scrape_pages_parallel, mapM_option_eq_map h]

/-- On all-whitespace input, the tokenizer only flushes the pending token. -/
theorem wsTokensAux_allWs (w : List Char) :
    (∀ x ∈ w, rustIsWhitespace x) → ∀ cur : List Char,
      wsTokensAux cur w = if cur.isEmpty then [] else [cur.reverse] := by
  induction w with
  | nil => intro _ cur; rfl
  | cons c cs ih =>
    intro hw cur
    have hc : rustIsWhitespace c = true := hw c (by simp)
    have ihcs := ih (fun x hx => hw x (by simp [hx]))
    by_cases hcur : cur.isEmpty = true <;>
      simp [wsTokensAux, hc, hcur, ihcs]

/-- Trailing whitespace does not change the token list. -/
theorem wsTokensAux_append_allWs {w : List Char}
    (hw : ∀ x ∈ w, rustIsWhitespace x) (l : List Char) :
    ∀ cur : List Char, wsTokensAux cur (l ++ w) = wsTokensAux cur l := by
  induction l with
  | nil =>
    intro cur
    rw [List.nil_append, wsTokensAux_allWs w hw cur]
    rfl
  | cons c cs ih =>
    intro cur
    by_cases hc : rustIsWhitespace c = true
    · by_cases hcur : cur.isEmpty = true <;> simp [wsTokensAux, hc, hcur, ih]
    · simp [wsTokensAux, hc, ih]

/-- Leading whitespace does not change the token list. -/
theorem wsTokens_trimLeft (l : List Char) : wsTokens (trimLeft l) = wsTokens l := by
  unfold wsTokens trimLeft
  induction l with
  | nil => rfl
  | cons c cs ih =>
    by_cases hc : rustIsWhitespace c = true
    · simpa [List.dropWhile_cons, hc, wsTokensAux] using ih
    · simp [List.dropWhile_cons, hc]

/-- A list is its right-trim followed by its trailing whitespace. -/
theorem trimRight_decomp (l : List Char) :
    l = trimRight l ++ (l.reverse.takeWhile rustIsWhitespace).reverse := by
  unfold trimRight
  conv_lhs =>
    rw [← List.reverse_reverse l,
      ← List.takeWhile_append_dropWhile (p := rustIsWhitespace) (l := l.reverse)]
  rw [List.reverse_append]

/-- Trailing whitespace removal does not change the token list. -/
theorem wsTokens_trimRight (l : List Char) :
    wsTokens (trimRight l) = wsTokens l := by
  have hw : ∀ x ∈ (l.reverse.takeWhile rustIsWhitespace).reverse,
      rustIsWhitespace x := by
    intro x hx
    rw [List.mem_reverse] at hx
    exact List.mem_takeWhile_imp hx
  conv_rhs => rw [trimRight_decomp l]
  exact (wsTokensAux_append_allWs hw (trimRight l) []).symm

/-- Trimming does not change the token list. -/
theorem wsTokens_rustTrimL (l : List Char) :
    wsTokens (rustTrimL l) = wsTokens l := by
  rw [rustTrimL, wsTokens_trimRight, wsTokens_trimLeft]

/-- Rust `split_whitespace` is invariant under `trim`. -/
theorem splitWhitespace_rustTrim (s : String) :
    splitWhitespace (rustTrim s) = splitWhitespace s := by
  show ((wsTokens (rustTrimL s.toList)).map String.mk) = _
  rw [wsTokens_rustTrimL]
  rfl

/-- The tokenizer never loses a pending token. -/
theorem wsTokensAux_ne_nil (cs : List Char) :
    ∀ cur : List Char, cur ≠ [] → wsTokensAux cur cs ≠ [] := by
  induction cs with
  | nil =>
    intro cur h
    simp [wsTokensAux, h]
  | cons c cs' ih =>
    intro cur h
    have hcur : cur.isEmpty = false := by simpa using h
    by_cases hc : rustIsWhitespace c = true
    · simp [wsTokensAux, hc, hcur]
    · simpa [wsTokensAux, hc] using ih (c :: cur) (by simp)

/-- The token list is empty exactly on all-whitespace input. -/
theorem wsTokens_eq_nil_iff (l : List Char) :
    wsTokens l = [] ↔ ∀ x ∈ l, rustIsWhitespace x := by
  constructor
  · induction l with
    | nil => intro _ x hx; simp at hx
    | cons c cs ih =>
      intro h x hx
      by_cases hc : rustIsWhitespace c = true
      · have h' : wsTokens cs = [] := by
          rw [wsTokens] at h ⊢
          simpa [wsTokensAux, hc] using h
        rcases List.mem_cons.mp hx with rfl | hx'
        · exact hc
        · exact ih h' x hx'
      · exfalso
        rw [wsTokens] at h
        simp only [wsTokensAux, hc, if_false, Bool.false_eq_true] at h
        exact wsTokensAux_ne_nil cs [c] (by simp) h
  · intro hw
    rw [wsTokens, wsTokensAux_allWs l hw []]
    rfl

/-- Left-trimming preserves being all-whitespace. -/
theorem allWs_trimLeft_iff (l : List Char) :
    (∀ x ∈ trimLeft l, rustIsWhitespace x) ↔ ∀ x ∈ l, rustIsWhitespace x := by
  constructor
  · intro h x hx
    rw [← List.takeWhile_append_dropWhile (p := rustIsWhitespace) (l := l)] at hx
    rcases List.mem_append.mp hx with h1 | h2
    · exact List.mem_takeWhile_imp h1
    · exact h x h2
  · intro h x hx
    exact h x ((List.dropWhile_sublist (l := l) rustIsWhitespace).subset hx)

/-- Right-trimming preserves being all-whitespace. -/
theorem allWs_trimRight_iff (l : List Char) :
    (∀ x ∈ trimRight l, rustIsWhitespace x) ↔ ∀ x ∈ l, rustIsWhitespace x := by
  unfold trimRight
  constructor
  · intro h x hx
    have hx' : x ∈ l.reverse := List.mem_reverse.mpr hx
    rw [← List.takeWhile_append_dropWhile (p := rustIsWhitespace)
      (l := l.reverse)] at hx'
    rcases List.mem_append.mp hx' with h1 | h2
    · exact List.mem_takeWhile_imp h1
    · exact h x (by rw [List.mem_reverse]; exact h2)
  · intro h x hx
    rw [List.mem_reverse] at hx
    have hx' : x ∈ l.reverse := (List.dropWhile_sublist (l := l.reverse) rustIsWhitespace).subset hx
    exact h x (List.mem_reverse.mp hx')

/-- Rust `trim` erases a string exactly when it is all whitespace. -/
theorem rustTrimL_eq_nil_iff (l : List Char) :
    rustTrimL l = [] ↔ ∀ x ∈ l, rustIsWhitespace x := by
  rw [rustTrimL]
  constructor
  · intro h
    have hall : ∀ x ∈ trimLeft l, rustIsWhitespace x := by
      unfold trimRight at h
      rw [List.reverse_eq_nil_iff, List.dropWhile_eq_nil_iff] at h
      intro x hx
      exact h x (List.mem_reverse.mpr hx)
    exact (allWs_trimLeft_iff l).mp hall
  · intro h
    have h1 : ∀ x ∈ trimLeft l, rustIsWhitespace x := (allWs_trimLeft_iff l).mpr h
    unfold trimRight
    rw [List.reverse_eq_nil_iff, List.dropWhile_eq_nil_iff]
    intro x hx
    exact h1 x (List.mem_reverse.mp hx)

/-- A trimmed string that is all whitespace is empty. -/
theorem allWs_rustTrimL_iff (l : List Char) :
    (∀ x ∈ rustTrimL l, rustIsWhitespace x) ↔ rustTrimL l = [] := by
  constructor
  · intro h
    rw [rustTrimL_eq_nil_iff]
    exact (allWs_trimLeft_iff l).mp ((allWs_trimRight_iff (trimLeft l)).mp h)
  · intro h
    rw [h]
    simp

/-!
## Claim theorems
-/

/-- C1: In bounded-concurrent mode with concurrency limit `k`, for every
`page_count ≥ k`, at no instant during a run of `scrape_pages_parallel` are
more than `k` network requests outstanding at once: in every state the
gate machine can reach from the start state, at most `k` tasks are in the
`fetching` phase. -/
theorem bounded_concurrency_limit (page_count k : Nat) (hk : k ≤ page_count)
    {s : GateState} (h : GateReach (initState page_count k) s) :
    countFetching s ≤ k := by
  have hinv := gate_invariant h
  have hsplit := countHolding_split s
  omega

/-- Witness for `bounded_concurrency_limit`: two pages, a gate of size one,
in the reachable state where the first task has acquired the gate and has
its request in flight. -/
theorem bounded_concurrency_limit_witness :
    countFetching ⟨[.fetching, .waiting], 0⟩ ≤ 1 := by
  have h1 : GateStep (initState 2 1) ⟨[.fetching, .waiting], 0⟩ :=
    GateStep.acquire (initState 2 1) 0 rfl (by decide)
  exact bounded_concurrency_limit 2 1 (by decide)
    (GateReach.tail GateReach.refl h1)

/-- C2, counterexample: the claim says the gate slot is released immediately
after the response is received, so that extraction work never holds a slot
(`releasedAfterResponse`: free permits + in-flight requests = gate size).
The state in which the single task of a one-page run is extracting is
reachable, has an extracting task, and violates that discipline: the permit
is still held (`drop(guard)` only runs after `scrape_page` returns, i.e.
after extraction). -/
theorem extraction_holds_gate_slot :
    GateReach (initState 1 1) ⟨[.extracting], 0⟩ ∧
    countExtracting ⟨[.extracting], 0⟩ = 1 ∧
    ¬ releasedAfterResponse 1 ⟨[.extracting], 0⟩ := by
  refine ⟨?_, by decide, ?_⟩
  · have h1 : GateStep (initState 1 1) ⟨[.fetching], 0⟩ :=
      GateStep.acquire (initState 1 1) 0 rfl (by decide)
    have h2 : GateStep (⟨[.fetching], 0⟩ : GateState) ⟨[.extracting], 0⟩ :=
      GateStep.respond _ 0 rfl
    exact GateReach.tail (GateReach.tail GateReach.refl h1) h2
  · unfold releasedAfterResponse countFetching
    decide

/-- C2 (amended): each page task acquires the admission gate before issuing
its request and releases it only after `scrape_page` returns — that is,
after the response has been received *and* extraction/parsing has finished;
extraction work does hold a gate slot.  Formally, in every reachable state
the free permits, the in-flight requests and the extracting tasks together
exhaust the gate. -/
theorem gate_released_after_extraction (page_count k : Nat) {s : GateState}
    (h : GateReach (initState page_count k) s) :
    s.permits + countFetching s + countExtracting s = k := by
  have hinv := gate_invariant h
  have hsplit := countHolding_split s
  omega

/-- Witness for `gate_released_after_extraction`: a one-page run with gate
size one, in the state where the task is extracting. -/
theorem gate_released_after_extraction_witness :
    (0 : Nat) + countFetching ⟨[.extracting], 0⟩
      + countExtracting ⟨[.extracting], 0⟩ = 1 := by
  have h1 : GateStep (initState 1 1) ⟨[.fetching], 0⟩ :=
    GateStep.acquire (initState 1 1) 0 rfl (by decide)
  have h2 : GateStep (⟨[.fetching], 0⟩ : GateState) ⟨[.extracting], 0⟩ :=
    GateStep.respond _ 0 rfl
  exact gate_released_after_extraction 1 1
    (GateReach.tail (GateReach.tail GateReach.refl h1) h2)

/-- C10: the bounded-concurrent orchestrator always returns a success value:
whenever `scrape_pages_parallel` returns at all (no task panicked), the
returned `Result` is `Ok`, for every configuration and every combination of
per-page outcomes — including every page failing. -/
theorem parallel_always_ok (max_pages : Nat) (fetch : Nat → FetchOutcome)
    (r : Except Nat (List Clinic))
    (h : scrape_pages_parallel max_pages fetch = some r) :
    ∃ l, scrape_pages_parallel max_pages fetch = some (.ok l) := by
  unfold scrape_pages_parallel at h ⊢
  cases hm : (pages max_pages).mapM (fun p => scrape_page p (fetch p)) with
  | none => rw [hm] at h; simp at h
  | some results => exact ⟨collectOk results, rfl⟩

/-- Witness for `parallel_always_ok`: a three-page batch in which every page
fails with a transport error still returns `Ok` (with the empty record
list). -/
theorem parallel_always_ok_witness :
    ∃ l, scrape_pages_parallel 3 (fun _ => .sendError 5) = some (.ok l) :=
  parallel_always_ok 3 (fun _ => .sendError 5) (.ok []) rfl

/-- C3: the record sequence of bounded-concurrent mode is aggregated in
launch order and is independent of the completion order of the tasks: any
two complete completion schedules yield the same output, that output is the
page-order concatenation of the per-page contributions, and it is the value
of `scrape_pages_parallel` whenever the page tasks yield those results. -/
theorem parallel_output_launch_order (n : Nat)
    (res : Nat → Except Nat (List Clinic)) (sched1 sched2 : List Nat)
    (h1 : sched1.Perm (List.range n)) (h2 : sched2.Perm (List.range n)) :
    scrape_pages_parallel_sched n res sched1
        = scrape_pages_parallel_sched n res sched2 ∧
    scrape_pages_parallel_sched n res sched1
        = some (.ok (((pages n).map (fun p => okPart (res p))).flatten)) ∧
    ∀ fetch : Nat → FetchOutcome,
      (∀ p ∈ pages n, scrape_page p (fetch p) = some (res p)) →
      scrape_pages_parallel_sched n res sched1 = scrape_pages_parallel n fetch := by
  have m1 : ∀ j ∈ List.range n, j ∈ sched1 := fun j hj => h1.mem_iff.mpr hj
  have m2 : ∀ j ∈ List.range n, j ∈ sched2 := fun j hj => h2.mem_iff.mpr hj
  have e1 := sched_model_eq n res m1
  have e2 := sched_model_eq n res m2
  have eord : collectOk ((pages n).map res)
      = ((pages n).map (fun p => okPart (res p))).flatten := by
    rw [collectOk_eq_join, List.map_map]
    rfl
  refine ⟨e1.trans e2.symm, by rw [e1, eord], ?_⟩
  intro fetch hf
  rw [e1, scrape_pages_parallel_eq n fetch res hf]

/-- Witness for `parallel_output_launch_order`: two pages whose completions
arrive in reversed order produce the same output as in-order completions,
with page 1's record before page 2's. -/
theorem parallel_output_launch_order_witness :
    scrape_pages_parallel_sched 2 sampleRes [1, 0]
        = scrape_pages_parallel_sched 2 sampleRes [0, 1] ∧
    scrape_pages_parallel_sched 2 sampleRes [1, 0]
        = some (.ok [sampleClinic "1", sampleClinic "2"]) := by
  obtain ⟨hind, hord, -⟩ :=
    parallel_output_launch_order 2 sampleRes [1, 0] [0, 1] (by decide) (by decide)
  refine ⟨hind, ?_⟩
  rw [hord]
  rfl

/-- C5: a page task that fails with a transport error is ignored: its
contribution to the final record sequence is empty and the batch is not
aborted — every other page's records are still collected, in page order. -/
theorem parallel_ignores_failed_page (n p e : Nat) (fetch : Nat → FetchOutcome)
    (res : Nat → Except Nat (List Clinic))
    (hp : p ∈ pages n) (hf : fetch p = .sendError e)
    (hres : ∀ q ∈ pages n, scrape_page q (fetch q) = some (res q)) :
    okPart (res p) = [] ∧
    scrape_pages_parallel n fetch
      = some (.ok (((pages n).map (fun q => okPart (res q))).flatten)) := by
  have hresp : res p = .error e := by
    have h := hres p hp
    rw [hf] at h
    simpa [scrape_page] using h.symm
  refine ⟨by rw [hresp]; rfl, ?_⟩
  rw [scrape_pages_parallel_eq n fetch res hres, collectOk_eq_join, List.map_map]
  rfl

/-- Witness for `parallel_ignores_failed_page`: in a two-page batch whose
page 2 transport-fails, page 2 contributes nothing and page 1's record is
still returned. -/
theorem parallel_ignores_failed_page_witness :
    okPart (resC5 2) = [] ∧
    scrape_pages_parallel 2 fetchC5 = some (.ok [clinicT]) := by
  obtain ⟨h1, h2⟩ :=
    parallel_ignores_failed_page 2 2 9 fetchC5 resC5 (by decide) rfl (by decide)
  exact ⟨h1, by rw [h2]; rfl⟩

/-- C6: a non-success HTTP status yields an `Ok`-empty (non-error) result,
is reported on the observability channel with the page number and the
status code, and the batch continues: the aggregate still contains every
other page's records, with this page contributing nothing. -/
theorem non_success_status_empty (p st : Nat) (body : Except Nat (List Container))
    (h : statusIsSuccess st = false) :
    scrape_page p (.response st body) = some (.ok []) ∧
    scrape_page_log p (.response st body) = [.scraping p, .failedFetch p st] ∧
    ∀ (n : Nat) (fetch : Nat → FetchOutcome) (res : Nat → Except Nat (List Clinic)),
      p ∈ pages n → fetch p = .response st body →
      (∀ q ∈ pages n, scrape_page q (fetch q) = some (res q)) →
      okPart (res p) = [] ∧
      scrape_pages_parallel n fetch
        = some (.ok (((pages n).map (fun q => okPart (res q))).flatten)) := by
  have h1 : scrape_page p (.response st body) = some (.ok []) := by
    simp [scrape_page, h]
  refine ⟨h1, by simp [scrape_page_log, h], ?_⟩
  intro n fetch res hp hf hres
  have hresp : res p = .ok [] := by
    have h2 := hres p hp
    rw [hf, h1] at h2
    exact (Option.some.inj h2).symm
  refine ⟨by rw [hresp]; rfl, ?_⟩
  rw [scrape_pages_parallel_eq n fetch res hres, collectOk_eq_join, List.map_map]
  rfl

/-- Witness for `non_success_status_empty`: page 1 answers 404 in a two-page
batch; it yields `Ok []`, logs the failure, and page 2's record is still
returned. -/
theorem non_success_status_empty_witness :
    scrape_page 1 (.response 404 (.ok [])) = some (.ok []) ∧
    scrape_page_log 1 (.response 404 (.ok []))
      = [.scraping 1, .failedFetch 1 404] ∧
    scrape_pages_parallel 2 fetchC6 = some (.ok [clinicT]) := by
  obtain ⟨h1, h2, h3⟩ := non_success_status_empty 1 404 (.ok []) rfl
  obtain ⟨-, h4⟩ := h3 2 fetchC6 resC6 (by decide) rfl (by decide)
  exact ⟨h1, h2, by rw [h4]; rfl⟩

/-- C4 (code defect): on a page whose first listing container lacks the
title element, the claimed behavior — fail only that entry, no crash, and
still produce the well-formed container's record — does not occur: the
`unwrap()` on the missing element panics and aborts the whole page
(modelled as `none`), although the page's other container parses to a
record on its own. -/
theorem missing_title_aborts_page :
    extractContainer goodContainer = some goodClinic ∧
    extractContainer badContainer = none ∧
    extractPage [badContainer, goodContainer] = none ∧
    scrape_page 1 (.response 200 (.ok [badContainer, goodContainer])) = none := by
  exact ⟨by decide, rfl, rfl, rfl⟩

/-- C7, counterexample: for the claim's own example address
"Bahnhofstrasse 12 8001 Zürich" the extracted postcode is "12" — the street
number is the first all-numeric token — not "8001" (which even the claim's
general rule would not select); and the "entirely of digits" rule diverges
from the code on numeric non-digits: for "½ 8001 Zürich" the code extracts
"½" although the first all-digit token is "8001". -/
theorem postcode_claim_counterexample :
    (extractContainer bahnhofContainer).map Clinic.postcode = some (some "12") ∧
    some "12" ≠ some "8001" ∧
    firstAllDigitToken "Bahnhofstrasse 12 8001 Zürich" = some "12" ∧
    (extractContainer halfContainer).map Clinic.postcode = some (some "½") ∧
    firstAllDigitToken "½ 8001 Zürich" = some "8001" := by
  exact ⟨by decide, by decide, by decide, by decide, by decide⟩

/-- C7 (amended): for every extracted record, `postcode` is the first
whitespace-delimited token of `address` all of whose characters are numeric
in the sense of Rust `char::is_numeric` (so for
"Bahnhofstrasse 12 8001 Zürich" the street number "12" is extracted, not
"8001", and numeric non-digits such as "½" qualify), `none` if no such
token exists; `city` is the last whitespace-delimited token of `address`,
`none` exactly when `address` is empty. -/
theorem postcode_city_rules (c : Container) (r : Clinic)
    (h : extractContainer c = some r) :
    r.postcode
        = (splitWhitespace r.address).find? (fun w => w.toList.all rustIsNumeric) ∧
    r.city = (splitWhitespace r.address).getLast? ∧
    (r.city = none ↔ r.address = "") := by
  rcases c with ⟨t, a, links⟩
  cases t with
  | none => simp [extractContainer] at h
  | some titleText =>
    cases a with
    | none => simp [extractContainer] at h
    | some addressRaw =>
      simp only [extractContainer, Option.some.injEq] at h
      subst h
      refine ⟨rfl, ?_, ?_⟩
      · show (splitWhitespace (rustTrim (rustTrim addressRaw))).getLast?
            = (splitWhitespace (rustTrim addressRaw)).getLast?
        rw [splitWhitespace_rustTrim]
      · show (splitWhitespace (rustTrim (rustTrim addressRaw))).getLast? = none
            ↔ rustTrim addressRaw = ""
        rw [splitWhitespace_rustTrim, List.getLast?_eq_none_iff,
          splitWhitespace, List.map_eq_nil_iff]
        constructor
        · intro hnil
          have hall : ∀ x ∈ (rustTrim addressRaw).toList, rustIsWhitespace x :=
            (wsTokens_eq_nil_iff _).mp hnil
          have h2 : rustTrimL addressRaw.toList = [] :=
            (allWs_rustTrimL_iff _).mp hall
          show rustTrim addressRaw = ""
          unfold rustTrim
          rw [h2]
        · intro hempty
          rw [hempty]
          rfl

/-- Witness for `postcode_city_rules`: the specification's example address,
whose extracted postcode is the street number "12" and city "Zürich",
together with the no-all-numeric-token example yielding `none`. -/
theorem postcode_city_rules_witness :
    bahnhofClinic.postcode
        = (splitWhitespace bahnhofClinic.address).find?
            (fun w => w.toList.all rustIsNumeric) ∧
    bahnhofClinic.city = (splitWhitespace bahnhofClinic.address).getLast? ∧
    (bahnhofClinic.city = none ↔ bahnhofClinic.address = "") ∧
    bahnhofClinic.postcode = some "12" ∧
    bahnhofClinic.city = some "Zürich" ∧
    (extractContainer noDigitContainer).map Clinic.postcode = some none := by
  obtain ⟨h1, h2, h3⟩ :=
    postcode_city_rules bahnhofContainer bahnhofClinic (by decide)
  exact ⟨h1, h2, h3, rfl, rfl, by decide⟩

/-- C8: `phone` is the first link reference beginning with "tel:" and
`website` the first beginning with "http", each `none` if absent; the two
are independent full `find?` scans over the same link collection, not a
single shared cursor. -/
theorem phone_website_first_match (c : Container) (r : Clinic)
    (h : extractContainer c = some r) :
    r.phone = c.links.find? (fun href => rustStartsWith href "tel:") ∧
    r.website = c.links.find? (fun href => rustStartsWith href "http") := by
  rcases c with ⟨t, a, links⟩
  cases t with
  | none => simp [extractContainer] at h
  | some titleText =>
    cases a with
    | none => simp [extractContainer] at h
    | some addressRaw =>
      simp only [extractContainer, Option.some.injEq] at h
      subst h
      exact ⟨rfl, rfl⟩

/-- Witness for `phone_website_first_match`: the specification's link list —
a "mailto:" link matching neither predicate, then the "tel:" link, then the
"http" link; both scans find their first match even though the "tel:" link
precedes the "http" one. -/
theorem phone_website_first_match_witness :
    linksClinic.phone
        = linksContainer.links.find? (fun href => rustStartsWith href "tel:") ∧
    linksClinic.website
        = linksContainer.links.find? (fun href => rustStartsWith href "http") ∧
    linksClinic.phone = some "tel:+41441234567" ∧
    linksClinic.website = some "http://example.com" := by
  obtain ⟨h1, h2⟩ := phone_website_first_match linksContainer linksClinic (by decide)
  exact ⟨h1, h2, rfl, rfl⟩

/-- Splitting the page list at a member. -/
theorem pages_split {n p : Nat} (hp : p ∈ pages n) :
    pages n = List.range' 1 (p - 1) ++ p :: List.range' (p + 1) (n - p) := by
  rw [pages] at hp ⊢
  rw [List.mem_range'_1] at hp
  have hp1 : 1 + 1 * (p - 1) = p := by omega
  have hn : (n - (p - 1)) + (p - 1) = n := by omega
  have e1 := List.range'_append 1 (p - 1) (n - (p - 1)) 1
  rw [hp1, hn] at e1
  have e2 : n - (p - 1) = (n - p) + 1 := by omega
  rw [e2, List.range'_succ] at e1
  exact e1.symm

/-- The sequential loop passes over a prefix of successful pages. -/
theorem scrape_pages_go_ok (fetch : Nat → FetchOutcome) (l1 l2 : List Nat) :
    (∀ q ∈ l1, ∃ cs, scrape_page q (fetch q) = some (.ok cs)) →
    ∀ acc, ∃ acc', scrape_pages_go fetch acc (l1 ++ l2)
      = scrape_pages_go fetch acc' l2 := by
  induction l1 with
  | nil => intro _ acc; exact ⟨acc, rfl⟩
  | cons q qs ih =>
    intro h acc
    obtain ⟨cs, hcs⟩ := h q (by simp)
    obtain ⟨acc', hacc⟩ := ih (fun x hx => h x (by simp [hx])) (acc ++ cs)
    refine ⟨acc', ?_⟩
    rw [List.cons_append]
    simpa [scrape_pages_go, hcs] using hacc

/-- The sequential fetch order stops right at the first failing page. -/
theorem scrape_pages_order_go_split (fetch : Nat → FetchOutcome) (l1 : List Nat)
    (p : Nat) (l2 : List Nat) (e : Nat) (hp : fetch p = .sendError e) :
    (∀ q ∈ l1, ∃ cs, scrape_page q (fetch q) = some (.ok cs)) →
    scrape_pages_order_go fetch (l1 ++ p :: l2) = l1 ++ [p] := by
  induction l1 with
  | nil =>
    intro _
    simp [scrape_pages_order_go, hp, scrape_page]
  | cons q qs ih =>
    intro h
    obtain ⟨cs, hcs⟩ := h q (by simp)
    rw [List.cons_append]
    simp only [scrape_pages_order_go, hcs]
    rw [ih (fun x hx => h x (by simp [hx]))]
    simp

/-- C9: sequential mode fetches and extracts pages one at a time in
increasing page-number order, and the first transport error aborts the
whole run, surfacing that error to the caller with no records: if every
page before `p` succeeds and page `p` transport-fails, the run returns
exactly that error, having fetched precisely pages `1..p` in order. -/
theorem sequential_fail_fast (n p e : Nat) (fetch : Nat → FetchOutcome)
    (hp : p ∈ pages n) (hf : fetch p = .sendError e)
    (hok : ∀ q ∈ pages n, q < p → ∃ cs, scrape_page q (fetch q) = some (.ok cs)) :
    scrape_pages n fetch = some (.error e) ∧
    scrape_pages_fetch_order n fetch = List.range' 1 p := by
  have hsplit := pages_split hp
  have hl1 : ∀ q ∈ List.range' 1 (p - 1),
      ∃ cs, scrape_page q (fetch q) = some (.ok cs) := by
    intro q hq
    have hq' : q ∈ pages n := by
      rw [hsplit]
      exact List.mem_append.mpr (Or.inl hq)
    have hqlt : q < p := by
      rw [List.mem_range'_1] at hq
      omega
    exact hok q hq' hqlt
  constructor
  · rw [scrape_pages, hsplit]
    obtain ⟨acc', hacc⟩ := scrape_pages_go_ok fetch _ _ hl1 []
    rw [hacc]
    simp [scrape_pages_go, hf, scrape_page]
  · rw [scrape_pages_fetch_order, hsplit,
      scrape_pages_order_go_split fetch _ p _ e hf hl1]
    have h1 : p ∈ pages n := hp
    rw [pages, List.mem_range'_1] at h1
    have e2 : List.range' 1 ((p - 1) + 1) = List.range' 1 (p - 1) ++ [1 + 1 * (p - 1)] :=
      List.range'_concat 1 (p - 1)
    have e3 : (p - 1) + 1 = p := by omega
    have e4 : 1 + 1 * (p - 1) = p := by omega
    rw [e3, e4] at e2
    exact e2.symm

/-- Witness for `sequential_fail_fast`: page 1 is a 404 (skipped, `Ok []`),
page 2 transport-fails with error 7; the sequential run returns error 7
after fetching pages 1 and 2 in order. -/
theorem sequential_fail_fast_witness :
    scrape_pages 2 fetchC9 = some (.error 7) ∧
    scrape_pages_fetch_order 2 fetchC9 = List.range' 1 2 := by
  refine sequential_fail_fast 2 2 7 fetchC9 (by decide) rfl ?_
  intro q hq hlt
  have hq1 : q = 1 := by
    rw [pages, List.mem_range'_1] at hq
    omega
  subst hq1
  exact ⟨[], rfl⟩

end InfoFetcher
